import Mathlib

/-!
Legend-Auc auction ledger: a shallow embedding in Lean.

This file embeds the auction/bid ledger of `auc.py` (a chat marketplace
bot backed by a SQLite store).  Rows of the `auctions`, `bids` and
`submissions` tables become structures, the database becomes lists of
rows, and each ledger operation (`save_auction`, `record_bid`,
`get_auction`, `remove_last_bid`, the validation path of
`handle_bid_amount`, `remove_last_bid`, `get_active_auctions_by_category`)
becomes a pure function from the database state to a new state plus a
result.  SQL `REAL` amounts are modelled as integers (every amount the
program manipulates — base prices, bids, the increment tiers — is
integral, and order/threshold comparisons over the integers mirror the
ones the code performs), timestamps as integers; `lastrowid` surrogate
keys are modelled by explicit `next_auction_id` / `next_bid_id`
counters on the state.
-/

namespace LegendAuc

/-- A row of the `bids` table. -/
structure Bid where
  bid_id : Nat
  auction_id : Nat
  bidder_id : Int
  bidder_name : String
  amount : Int
  timestamp : Int
  is_active : Bool
deriving Repr, DecidableEq

/-- A row of the `auctions` table. -/
structure Auction where
  auction_id : Nat
  item_text : String
  photo_id : Option String
  base_price : Int
  current_bid : Option Int
  current_bidder : Option String
  previous_bidder : Option String
  is_active : Bool
  channel_message_id : Option Int
  created_at : Int
deriving Repr, DecidableEq

/-- A row of the `submissions` table; of the JSON `data` payload only the
`category` field matters to the ledger, so it is the only field modelled
(`none` when the payload has no `category` key). -/
structure Submission where
  submission_id : Nat
  user_id : Int
  data_category : Option String
  channel_message_id : Option Int
deriving Repr, DecidableEq

/-- The auction database state. -/
structure DB where
  auctions : List Auction
  bids : List Bid
  submissions : List Submission
  next_auction_id : Nat
  next_bid_id : Nat
deriving Repr, DecidableEq

/-- The active bids of one auction (`WHERE auction_id=? AND is_active=1`). -/
def active_bids (db : DB) (aid : Nat) : List Bid :=
  db.bids.filter (fun b => b.auction_id == aid && b.is_active)

/-- One step of scanning for the row of maximal `amount`; on a tie the
earlier row is kept. -/
def better_amount (acc : Option Bid) (b : Bid) : Option Bid :=
  match acc with
  | none => some b
  | some m => if m.amount < b.amount then some b else some m

/-- The row of maximal `amount` (`ORDER BY amount DESC LIMIT 1`). -/
def max_amount_bid (l : List Bid) : Option Bid :=
  l.foldl better_amount none

/-- The active bid of maximal amount for an auction: the query
`SELECT ... FROM bids WHERE auction_id=? AND is_active=1 ORDER BY amount
DESC LIMIT 1` used by `record_bid` and `remove_last_bid`. -/
def top_active_bid (db : DB) (aid : Nat) : Option Bid :=
  max_amount_bid (active_bids db aid)

/-- One step of scanning for the row of maximal `(timestamp, bid_id)`. -/
def later_bid (acc : Option Bid) (b : Bid) : Option Bid :=
  match acc with
  | none => some b
  | some m =>
    if m.timestamp < b.timestamp ∨ (m.timestamp = b.timestamp ∧ m.bid_id < b.bid_id)
    then some b else some m

/-- The row of maximal `(timestamp, bid_id)`
(`ORDER BY timestamp DESC, bid_id DESC LIMIT 1`). -/
def latest_bid (l : List Bid) : Option Bid :=
  l.foldl later_bid none

/-- The most recently placed active bid of an auction, as selected by
`remove_last_bid`. -/
def last_active_bid (db : DB) (aid : Nat) : Option Bid :=
  latest_bid (active_bids db aid)

/-- Models `telegram.utils.helpers.escape_markdown` (version 1), which
`record_bid` applies to the bidder name before storing it: each of the
characters underscore, asterisk, backtick and opening square bracket is
prefixed with a backslash. -/
def escape_markdown (s : String) : String :=
  String.mk (s.data.foldr
    (fun c acc =>
      if c = '_' ∨ c = '*' ∨ c = Char.ofNat 96 ∨ c = '[' then '\\' :: c :: acc
      else c :: acc)
    [])

/-- `SELECT * FROM auctions WHERE auction_id=?` (first matching row). -/
def get_auction (db : DB) (aid : Nat) : Option Auction :=
  db.auctions.find? (fun a => a.auction_id == aid)

/-- The `UPDATE auctions SET current_bid=?, previous_bidder=COALESCE
(current_bidder, 'None'), current_bidder=? WHERE auction_id=?` row
update performed by `record_bid`. -/
def bid_update (amount : Int) (escaped : String) (a : Auction) : Auction :=
  { a with current_bid := some amount,
           previous_bidder := some (a.current_bidder.getD "None"),
           current_bidder := some escaped }

/-- `record_bid(auction_id, bidder_id, bidder_name, amount)`: reads the
previous top active bid, inserts a new active bid row with the escaped
bidder name, and updates the auction row via `bid_update`.  Returns the
previous top bid record `(bidder_id, bidder_name, amount)` if any.
`now` stands for the `CURRENT_TIMESTAMP` default of the inserted row. -/
def record_bid (db : DB) (aid : Nat) (bidder_id : Int) (bidder_name : String)
    (amount : Int) (now : Int) : DB × Option (Int × String × Int) :=
  let escaped := escape_markdown bidder_name
  let prev := (top_active_bid db aid).map (fun b => (b.bidder_id, b.bidder_name, b.amount))
  let new_bid : Bid :=
    { bid_id := db.next_bid_id, auction_id := aid, bidder_id := bidder_id,
      bidder_name := escaped, amount := amount, timestamp := now, is_active := true }
  let db' : DB :=
    { db with
      bids := db.bids ++ [new_bid],
      next_bid_id := db.next_bid_id + 1,
      auctions := db.auctions.map (fun a =>
        if a.auction_id == aid then bid_update amount escaped a else a) }
  (db', prev)

/-- Result of `save_auction`: a `ValueError` on missing fields, `None`
on a duplicate channel message id, or the id of the inserted row. -/
inductive SaveResult where
  | invalid
  | duplicate
  | created (aid : Nat)
deriving Repr, DecidableEq

/-- Python truthiness of the optional `channel_msg_id` argument
(`if channel_msg_id:`): false for `None` and for `0`. -/
def supplied (ref : Option Int) : Bool :=
  match ref with
  | some r => r != 0
  | none => false

/-- `save_auction(item_text, photo_id, base_price, channel_msg_id)`:
raises when `item_text` is falsy or `base_price is None`; when a truthy
`channel_msg_id` is given and any auction row already carries it,
returns `None` (duplicate); otherwise inserts a fresh active auction row
with NULL `current_bid` / `current_bidder` / `previous_bidder` and
returns its id.  `now` stands for the `created_at` default. -/
def save_auction (db : DB) (item_text : String) (photo_id : Option String)
    (base_price : Option Int) (channel_msg_id : Option Int) (now : Int) :
    DB × SaveResult :=
  if item_text = "" ∨ base_price = none then (db, .invalid)
  else if supplied channel_msg_id &&
      db.auctions.any (fun a => a.channel_message_id == channel_msg_id) then
    (db, .duplicate)
  else
    let new_auction : Auction :=
      { auction_id := db.next_auction_id, item_text := item_text, photo_id := photo_id,
        base_price := base_price.getD 0, current_bid := none, current_bidder := none,
        previous_bidder := none, is_active := true, channel_message_id := channel_msg_id,
        created_at := now }
    ({ db with auctions := db.auctions ++ [new_auction],
               next_auction_id := db.next_auction_id + 1 },
     .created db.next_auction_id)

/-- `get_min_increment(current_bid)`: the tiered minimum bid increment. -/
def get_min_increment : Option Int → Int
  | none => 1000
  | some v =>
    if v = 0 then 1000
    else if v < 20000 then 1000
    else if v < 40000 then 2000
    else if v < 70000 then 3000
    else if v < 100000 then 4000
    else 5000

/-- `auction.get('current_bid') or auction.get('base_price', 0)`: the
current amount used by `handle_bid_amount`; a falsy `current_bid`
(NULL or 0) falls back to the base price. -/
def current_amount (a : Auction) : Int :=
  match a.current_bid with
  | some v => if v = 0 then a.base_price else v
  | none => a.base_price

/-- Outcome of the bid-placement path of `handle_bid_amount`. -/
inductive BidOutcome where
  | inactive_auction
  | too_low (min_bid : Int)
  | accepted (prev : Option (Int × String × Int))
deriving Repr, DecidableEq

/-- The validation-and-record path of `handle_bid_amount`: rejects when
the auction is missing or closed, rejects any amount strictly below
`current_amount + get_min_increment(current_amount)`, and otherwise
records the bid via `record_bid`. -/
def handle_bid_amount (db : DB) (aid : Nat) (bidder_id : Int) (bidder_name : String)
    (bid_amount : Int) (now : Int) : DB × BidOutcome :=
  match get_auction db aid with
  | none => (db, .inactive_auction)
  | some auction =>
    if auction.is_active = false then (db, .inactive_auction)
    else
      let ca := current_amount auction
      let min_bid := ca + get_min_increment (some ca)
      if bid_amount < min_bid then (db, .too_low min_bid)
      else
        let r := record_bid db aid bidder_id bidder_name bid_amount now
        (r.1, .accepted r.2)

/-- The `UPDATE bids SET is_active=0 WHERE bid_id=?` row update
performed by `remove_last_bid`. -/
def deactivate_bid (k : Nat) (db : DB) : DB :=
  { db with bids := db.bids.map (fun b =>
      if b.bid_id == k then { b with is_active := false } else b) }

/-- The `UPDATE auctions SET current_bid=…, current_bidder=…,
previous_bidder=? WHERE auction_id=?` row update performed by
`remove_last_bid`: the new leader's name and amount when one remains
(`nt = some _`), NULL bid state otherwise. -/
def set_leader (aid : Nat) (nt : Option Bid) (pn : String) (db : DB) : DB :=
  { db with auctions := db.auctions.map (fun a =>
      if a.auction_id == aid then
        { a with current_bid := nt.map Bid.amount,
                 current_bidder := nt.map Bid.bidder_name,
                 previous_bidder := some pn }
      else a) }

/-- `remove_last_bid(auction_id)`: returns `none` when the auction has
no active bid; otherwise marks the most recently placed active bid
inactive, recomputes the top remaining active bid, and updates the
auction row — `current_bid` / `current_bidder` to the new top (or NULL
when none remains) and `previous_bidder` to the retracted bid's name in
either case.  Returns the new top `(name, amount)`, or `(none, none)`
when no active bid remains. -/
def remove_last_bid (db : DB) (aid : Nat) : DB × Option (Option String × Option Int) :=
  match last_active_bid db aid with
  | none => (db, none)
  | some last =>
    let db1 : DB := deactivate_bid last.bid_id db
    match top_active_bid db1 aid with
    | some nt =>
      (set_leader aid (some nt) last.bidder_name db1,
       some (some nt.bidder_name, some nt.amount))
    | none =>
      (set_leader aid none last.bidder_name db1,
       some (none, none))

/-- The `category` field of the submission payload joined to an auction
by `LEFT JOIN submissions s ON a.channel_message_id = s.channel_message_id`
(`none` when the join finds no row or the payload has no category). -/
def submission_data_category (db : DB) (a : Auction) : Option String :=
  match a.channel_message_id with
  | none => none
  | some r =>
    match db.submissions.find? (fun s => s.channel_message_id == some r) with
    | some s => s.data_category
    | none => none

/-- `submission_data.get('category', 'nonlegendary')`. -/
def auction_category (db : DB) (a : Auction) : String :=
  (submission_data_category db a).getD "nonlegendary"

/-- Insertion step realising `ORDER BY created_at DESC`. -/
def insert_by_created (a : Auction) : List Auction → List Auction
  | [] => [a]
  | b :: rest =>
    if b.created_at ≤ a.created_at then a :: b :: rest
    else b :: insert_by_created a rest

/-- Insertion sort realising `ORDER BY created_at DESC`. -/
def sort_by_created_desc : List Auction → List Auction
  | [] => []
  | a :: rest => insert_by_created a (sort_by_created_desc rest)

/-- The four category buckets returned by `get_active_auctions_by_category`. -/
structure Categorized where
  nonlegendary : List Auction
  shiny : List Auction
  legendary : List Auction
  tms : List Auction
deriving Repr, DecidableEq

/-- One iteration of the categorisation loop: append the auction to the
bucket named by its category, defaulting to `nonlegendary`. -/
def categorize_step (db : DB) (cat : Categorized) (a : Auction) : Categorized :=
  let c := auction_category db a
  if c = "legendary" then { cat with legendary := cat.legendary ++ [a] }
  else if c = "shiny" then { cat with shiny := cat.shiny ++ [a] }
  else if c = "tms" then { cat with tms := cat.tms ++ [a] }
  else { cat with nonlegendary := cat.nonlegendary ++ [a] }

/-- `get_active_auctions_by_category()`: the active auctions, most
recently created first, split into the four fixed buckets. -/
def get_active_auctions_by_category (db : DB) : Categorized :=
  let auctions := sort_by_created_desc (db.auctions.filter (fun a => a.is_active))
  auctions.foldl (categorize_step db) ⟨[], [], [], []⟩

/-- The spec's consistency invariant for one auction row: `current_bid`
is NULL iff the auction has no active bid, and a non-NULL `current_bid`
is the maximum amount among its active bids. -/
def auction_invariant (db : DB) (a : Auction) : Prop :=
  (a.current_bid = none ↔ active_bids db a.auction_id = []) ∧
  ∀ v, a.current_bid = some v →
    (∃ b ∈ active_bids db a.auction_id, b.amount = v) ∧
    ∀ b ∈ active_bids db a.auction_id, b.amount ≤ v

/-- The consistency invariant for every auction row of the database. -/
def db_invariant (db : DB) : Prop :=
  ∀ a ∈ db.auctions, auction_invariant db a

/-- Structural well-formedness the SQLite schema provides: AUTOINCREMENT
primary keys are unique and below the next-row-id counters, and bids
reference already-created auction ids. -/
def db_wf (db : DB) : Prop :=
  (∀ a ∈ db.auctions, a.auction_id < db.next_auction_id) ∧
  (∀ b ∈ db.bids, b.bid_id < db.next_bid_id) ∧
  (∀ b ∈ db.bids, b.auction_id < db.next_auction_id) ∧
  db.auctions.Pairwise (fun x y => x.auction_id ≠ y.auction_id) ∧
  db.bids.Pairwise (fun x y => x.bid_id ≠ y.bid_id)

instance db_wf_decidable (db : DB) : Decidable (db_wf db) := by
  unfold db_wf
  infer_instance

/-! Concrete executions used to settle the end-to-end claims: the spec's
bidding scenario on a base price of 5000, and a run with a negative base
price exercising the falsy-`current_bid` fallback of `handle_bid_amount`. -/

/-- The empty database. -/
def empty_db : DB := ⟨[], [], [], 1, 1⟩

/-- Scenario: create an auction with base price 5000. -/
def scenario_created : DB :=
  (save_auction empty_db "Shiny Charizard" none (some 5000) (some 10) 0).1

/-- Scenario: first bid of 6000 by bidder 101. -/
def scenario_bid1 : DB × BidOutcome :=
  handle_bid_amount scenario_created 1 101 "alice" 6000 1

/-- Scenario: attempted bid of 6999 by bidder 102. -/
def scenario_bid2 : DB × BidOutcome :=
  handle_bid_amount scenario_bid1.1 1 102 "bob" 6999 2

/-- Scenario: bid of 7000 by bidder 102. -/
def scenario_bid3 : DB × BidOutcome :=
  handle_bid_amount scenario_bid2.1 1 102 "bob" 7000 3

/-- Scenario: retract the last bid. -/
def scenario_retract : DB × Option (Option String × Option Int) :=
  remove_last_bid scenario_bid3.1 1

/-- Negative-base run: create an auction with base price -2000 (which
`save_auction` accepts — it only checks that a base price is present). -/
def neg_scenario1 : DB :=
  (save_auction empty_db "odd item" none (some (-2000)) (some 11) 0).1

/-- Negative-base run: bid of -1000 (threshold -2000 + 1000 = -1000). -/
def neg_scenario2 : DB :=
  (handle_bid_amount neg_scenario1 1 1 "u" (-1000) 1).1

/-- Negative-base run: bid of 0 (threshold -1000 + 1000 = 0), after which
the auction's `current_bid` is the falsy value 0. -/
def neg_scenario3 : DB :=
  (handle_bid_amount neg_scenario2 1 2 "v" 0 2).1

/-- A two-bid state used to exercise `remove_last_bid`: bidder 101
placed 6000, bidder 102 leads with 7000. -/
def retract_db : DB :=
  ⟨[⟨1, "itm", none, 5000, some 7000, some "bob", some "alice", true, some 10, 0⟩],
   [⟨1, 1, 101, "alice", 6000, 1, true⟩, ⟨2, 1, 102, "bob", 7000, 2, true⟩], [], 2, 3⟩

/-- A state used to exercise the category listing: a legendary auction,
an active auction whose submission payload has no category, and a closed
auction. -/
def categ_db : DB :=
  ⟨[⟨1, "leg", none, 100, none, none, none, true, some 21, 5⟩,
    ⟨2, "unknown", none, 100, none, none, none, true, some 22, 7⟩,
    ⟨3, "closed", none, 100, none, none, none, false, some 23, 9⟩],
   [],
   [⟨1, 9, some "legendary", some 21⟩, ⟨2, 9, none, some 22⟩], 4, 1⟩

/-! Helper lemmas about the scanning folds, list updates and sorting. -/

/-- One scan step always yields a row: the new candidate or the old one,
with an amount bounding both. -/
theorem better_amount_step (acc : Option Bid) (b : Bid) :
    ∃ m, better_amount acc b = some m ∧ b.amount ≤ m.amount ∧
      (∀ m0, acc = some m0 → m0.amount ≤ m.amount) ∧
      (m = b ∨ acc = some m) := by
  cases acc with
  | none => exact ⟨b, rfl, le_refl _, by simp, Or.inl rfl⟩
  | some m0 =>
    by_cases h : m0.amount < b.amount
    · exact ⟨b, by simp [better_amount, h], le_refl _,
        fun x hx => by cases hx; omega, Or.inl rfl⟩
    · exact ⟨m0, by simp [better_amount, h], by omega,
        fun x hx => by cases hx; omega, Or.inr rfl⟩

/-- The amount-maximum scan starting from `acc` yields `none` only when
nothing was scanned. -/
theorem foldl_better_amount_eq_none {l : List Bid} {acc : Option Bid}
    (h : l.foldl better_amount acc = none) : acc = none ∧ l = [] := by
  induction l generalizing acc with
  | nil => exact ⟨h, rfl⟩
  | cons b t ih =>
    obtain ⟨h1, h2⟩ := ih h
    obtain ⟨m, hm, -⟩ := better_amount_step acc b
    rw [hm] at h1
    exact absurd h1 (by simp)

/-- Specification of the amount-maximum scan: the result is a scanned row
(or the start row), every scanned row has a smaller-or-equal amount, and
the start row has a smaller-or-equal amount. -/
theorem foldl_better_amount_spec {l : List Bid} :
    ∀ {acc : Option Bid} {b : Bid}, l.foldl better_amount acc = some b →
      (b ∈ l ∨ acc = some b) ∧ (∀ x ∈ l, x.amount ≤ b.amount) ∧
      (∀ m, acc = some m → m.amount ≤ b.amount) := by
  induction l with
  | nil =>
    intro acc b h
    exact ⟨Or.inr h, by simp, fun m hm => by rw [hm] at h; cases h; omega⟩
  | cons x t ih =>
    intro acc b h
    obtain ⟨m, hm, hxle, hacc0, hor⟩ := better_amount_step acc x
    rw [List.foldl_cons, hm] at h
    obtain ⟨hmem, hall, hle⟩ := ih h
    have hmb : m.amount ≤ b.amount := hle m rfl
    refine ⟨?_, ?_, ?_⟩
    · rcases hmem with h' | h'
      · exact Or.inl (List.mem_cons_of_mem x h')
      · cases h'
        rcases hor with h'' | h''
        · exact Or.inl (by simp [h''])
        · exact Or.inr h''
    · intro y hy
      rcases List.mem_cons.mp hy with hy' | hy'
      · cases hy'; omega
      · exact hall y hy'
    · intro m0 hm0
      have := hacc0 m0 hm0
      omega

/-- `max_amount_bid` returns `none` exactly on the empty list. -/
theorem max_amount_bid_eq_none {l : List Bid} :
    max_amount_bid l = none ↔ l = [] := by
  constructor
  · intro h; exact (foldl_better_amount_eq_none h).2
  · intro h; subst h; rfl

/-- A row returned by `max_amount_bid` belongs to the list and its amount
bounds every amount in the list. -/
theorem max_amount_bid_spec {l : List Bid} {b : Bid}
    (h : max_amount_bid l = some b) :
    b ∈ l ∧ ∀ x ∈ l, x.amount ≤ b.amount := by
  obtain ⟨hmem, hall, _⟩ := foldl_better_amount_spec h
  rcases hmem with hm | hm
  · exact ⟨hm, hall⟩
  · simp at hm

/-- `b` was placed no later than `r`: earlier timestamp, or the same
timestamp and a smaller-or-equal row id. -/
def placed_le (b r : Bid) : Prop :=
  b.timestamp < r.timestamp ∨ (b.timestamp = r.timestamp ∧ b.bid_id ≤ r.bid_id)

/-- One step of the latest-bid scan always yields a row placed no earlier
than the new candidate and the old one. -/
theorem later_bid_step (acc : Option Bid) (b : Bid) :
    ∃ m, later_bid acc b = some m ∧ placed_le b m ∧
      (∀ m0, acc = some m0 → placed_le m0 m) ∧
      (m = b ∨ acc = some m) := by
  cases acc with
  | none => exact ⟨b, rfl, Or.inr ⟨rfl, le_refl _⟩, by simp, Or.inl rfl⟩
  | some m0 =>
    by_cases h : m0.timestamp < b.timestamp ∨ (m0.timestamp = b.timestamp ∧ m0.bid_id < b.bid_id)
    · refine ⟨b, by simp [later_bid, h], Or.inr ⟨rfl, le_refl _⟩, ?_, Or.inl rfl⟩
      intro x hx
      cases hx
      unfold placed_le
      omega
    · refine ⟨m0, by simp [later_bid, h], ?_, fun x hx => by cases hx; exact Or.inr ⟨rfl, le_refl _⟩, Or.inr rfl⟩
      unfold placed_le
      omega

/-- The latest-bid scan starting from `acc` yields `none` only when
nothing was scanned. -/
theorem foldl_later_bid_eq_none {l : List Bid} {acc : Option Bid}
    (h : l.foldl later_bid acc = none) : acc = none ∧ l = [] := by
  induction l generalizing acc with
  | nil => exact ⟨h, rfl⟩
  | cons b t ih =>
    obtain ⟨h1, h2⟩ := ih h
    obtain ⟨m, hm, -⟩ := later_bid_step acc b
    rw [hm] at h1
    exact absurd h1 (by simp)

/-- Specification of the latest-bid scan: the result is a scanned row (or
the start row) and every scanned row was placed no later than it. -/
theorem foldl_later_bid_spec {l : List Bid} :
    ∀ {acc : Option Bid} {b : Bid}, l.foldl later_bid acc = some b →
      (b ∈ l ∨ acc = some b) ∧ (∀ x ∈ l, placed_le x b) ∧
      (∀ m, acc = some m → placed_le m b) := by
  induction l with
  | nil =>
    intro acc b h
    refine ⟨Or.inr h, by simp, fun m hm => ?_⟩
    rw [hm] at h; cases h
    exact Or.inr ⟨rfl, le_refl _⟩
  | cons x t ih =>
    intro acc b h
    obtain ⟨m, hm, hxle, hacc0, hor⟩ := later_bid_step acc x
    rw [List.foldl_cons, hm] at h
    obtain ⟨hmem, hall, hle⟩ := ih h
    have hmb : placed_le m b := hle m rfl
    refine ⟨?_, ?_, ?_⟩
    · rcases hmem with h' | h'
      · exact Or.inl (List.mem_cons_of_mem x h')
      · cases h'
        rcases hor with h'' | h''
        · exact Or.inl (by simp [h''])
        · exact Or.inr h''
    · intro y hy
      rcases List.mem_cons.mp hy with hy' | hy'
      · cases hy'
        unfold placed_le at *
        omega
      · exact hall y hy'
    · intro m0 hm0
      have := hacc0 m0 hm0
      unfold placed_le at *
      omega

/-- `latest_bid` returns `none` exactly on the empty list. -/
theorem latest_bid_eq_none {l : List Bid} :
    latest_bid l = none ↔ l = [] := by
  constructor
  · intro h; exact (foldl_later_bid_eq_none h).2
  · intro h; subst h; rfl

/-- A row returned by `latest_bid` belongs to the list and every row of
the list was placed no later than it. -/
theorem latest_bid_spec {l : List Bid} {b : Bid}
    (h : latest_bid l = some b) :
    b ∈ l ∧ ∀ x ∈ l, placed_le x b := by
  obtain ⟨hmem, hall, _⟩ := foldl_later_bid_spec h
  rcases hmem with hm | hm
  · exact ⟨hm, hall⟩
  · simp at hm

/-- `find?` commutes with a map that does not change the predicate. -/
theorem find?_map_comm {α : Type} (g : α → α) (p : α → Bool)
    (hg : ∀ a, p (g a) = p a) :
    ∀ l : List α, (l.map g).find? p = (l.find? p).map g := by
  intro l
  induction l with
  | nil => rfl
  | cons x t ih =>
    by_cases hx : p x
    · simp [List.find?_cons, hg, hx]
    · simp only [List.map_cons, List.find?_cons]
      rw [hg x]
      simp only [hx]
      exact ih

/-- In a list whose keys are pairwise distinct, two members with the same
key are the same element. -/
theorem eq_of_pairwise_key {α β : Type} (f : α → β) :
    ∀ (l : List α), l.Pairwise (fun x y => f x ≠ f y) →
      ∀ {a b : α}, a ∈ l → b ∈ l → f a = f b → a = b := by
  intro l
  induction l with
  | nil => intro _ a b ha; simp at ha
  | cons x t ih =>
    intro hp a b ha hb hf
    obtain ⟨hx, ht⟩ := List.pairwise_cons.mp hp
    rcases List.mem_cons.mp ha with ha' | ha' <;>
      rcases List.mem_cons.mp hb with hb' | hb'
    · rw [ha', hb']
    · exact absurd (ha' ▸ hf) (hx b hb')
    · exact absurd (hb' ▸ hf.symm) (hx a ha')
    · exact ih ht ha' hb' hf

/-- Marking the bid with id `k` inactive and then filtering for the
active bids of auction `x` is filtering the original active bids for
ids other than `k`. -/
theorem filter_map_flip (k x : Nat) :
    ∀ l : List Bid,
      ((l.map (fun b => if b.bid_id == k then { b with is_active := false } else b)).filter
        (fun b => b.auction_id == x && b.is_active))
      = (l.filter (fun b => b.bid_id != k && (b.auction_id == x && b.is_active))) := by
  intro l
  induction l with
  | nil => rfl
  | cons b t ih =>
    simp only [List.map_cons, List.filter_cons]
    by_cases hk : b.bid_id = k
    · have h1 : ((if b.bid_id == k then { b with is_active := false } else b).auction_id == x &&
          (if b.bid_id == k then { b with is_active := false } else b).is_active) = false := by
        simp [hk]
      have h2 : (b.bid_id != k && (b.auction_id == x && b.is_active)) = false := by
        simp [hk]
      rw [h1, h2]
      simp only [Bool.false_eq_true, if_false]
      exact ih
    · have hg : (if b.bid_id == k then { b with is_active := false } else b) = b := by
        simp [hk]
      have h2 : (b.bid_id != k && (b.auction_id == x && b.is_active))
          = (b.auction_id == x && b.is_active) := by
        simp [hk]
      rw [hg, h2]
      by_cases hp : (b.auction_id == x && b.is_active) = true
      · rw [if_pos hp, if_pos hp, ih]
      · rw [if_neg hp, if_neg hp]
        exact ih

/-- Two databases with the same bid rows have the same active bids. -/
theorem active_bids_congr {db db' : DB} (h : db'.bids = db.bids) (x : Nat) :
    active_bids db' x = active_bids db x := by
  unfold active_bids
  rw [h]

/-- The consistency invariant only looks at an auction's active bids. -/
theorem auction_invariant_of_eq {db db' : DB} {a : Auction}
    (h : active_bids db' a.auction_id = active_bids db a.auction_id)
    (hinv : auction_invariant db a) : auction_invariant db' a := by
  unfold auction_invariant at *
  rw [h]
  exact hinv

/-- Inserting into the descending-by-creation order is a permutation. -/
theorem perm_insert_by_created (a : Auction) (l : List Auction) :
    List.Perm (insert_by_created a l) (a :: l) := by
  induction l with
  | nil => exact List.Perm.refl _
  | cons b t ih =>
    unfold insert_by_created
    by_cases h : b.created_at ≤ a.created_at
    · rw [if_pos h]
    · rw [if_neg h]
      exact (ih.cons b).trans (List.Perm.swap a b t)

/-- Sorting by descending creation time is a permutation. -/
theorem perm_sort_by_created (l : List Auction) :
    List.Perm (sort_by_created_desc l) l := by
  induction l with
  | nil => exact List.Perm.refl _
  | cons a t ih =>
    exact (perm_insert_by_created a (sort_by_created_desc t)).trans (ih.cons a)

/-- Inserting into a list sorted by descending creation time keeps it
sorted. -/
theorem sorted_insert_by_created (a : Auction) (l : List Auction)
    (h : l.Pairwise (fun x y => y.created_at ≤ x.created_at)) :
    (insert_by_created a l).Pairwise (fun x y => y.created_at ≤ x.created_at) := by
  induction l with
  | nil => simp [insert_by_created]
  | cons b t ih =>
    obtain ⟨hb, ht⟩ := List.pairwise_cons.mp h
    unfold insert_by_created
    by_cases hba : b.created_at ≤ a.created_at
    · rw [if_pos hba]
      refine List.pairwise_cons.mpr ⟨?_, h⟩
      intro y hy
      rcases List.mem_cons.mp hy with hy' | hy'
      · subst hy'; exact hba
      · exact le_trans (hb y hy') hba
    · rw [if_neg hba]
      refine List.pairwise_cons.mpr ⟨?_, ih ht⟩
      intro y hy
      rcases List.mem_cons.mp ((perm_insert_by_created a t).mem_iff.mp hy) with hy' | hy'
      · subst hy'; omega
      · exact hb y hy'

/-- `sort_by_created_desc` sorts by descending creation time. -/
theorem sorted_sort_by_created (l : List Auction) :
    (sort_by_created_desc l).Pairwise (fun x y => y.created_at ≤ x.created_at) := by
  induction l with
  | nil => simp [sort_by_created_desc]
  | cons a t ih => exact sorted_insert_by_created a _ ih

/-- The categorisation fold appends, to each starting bucket, exactly the
scanned auctions whose category names that bucket (the catch-all bucket
taking every unrecognised category). -/
theorem foldl_categorize_spec (db : DB) :
    ∀ (l : List Auction) (cat : Categorized),
      (l.foldl (categorize_step db) cat).legendary
          = cat.legendary ++ l.filter (fun a => auction_category db a == "legendary") ∧
      (l.foldl (categorize_step db) cat).shiny
          = cat.shiny ++ l.filter (fun a => auction_category db a == "shiny") ∧
      (l.foldl (categorize_step db) cat).tms
          = cat.tms ++ l.filter (fun a => auction_category db a == "tms") ∧
      (l.foldl (categorize_step db) cat).nonlegendary
          = cat.nonlegendary ++ l.filter (fun a =>
              !(auction_category db a == "legendary" || auction_category db a == "shiny" ||
                auction_category db a == "tms")) := by
  intro l
  induction l with
  | nil => intro cat; simp
  | cons a t ih =>
    intro cat
    simp only [List.foldl_cons]
    by_cases h1 : auction_category db a = "legendary"
    · have hstep : categorize_step db cat a = { cat with legendary := cat.legendary ++ [a] } := by
        simp [categorize_step, h1]
      rw [hstep]
      obtain ⟨ih1, ih2, ih3, ih4⟩ := ih { cat with legendary := cat.legendary ++ [a] }
      exact ⟨by simp [ih1, h1], by simp [ih2, h1], by simp [ih3, h1], by simp [ih4, h1]⟩
    · by_cases h2 : auction_category db a = "shiny"
      · have hstep : categorize_step db cat a = { cat with shiny := cat.shiny ++ [a] } := by
          simp [categorize_step, h1, h2]
        rw [hstep]
        obtain ⟨ih1, ih2, ih3, ih4⟩ := ih { cat with shiny := cat.shiny ++ [a] }
        exact ⟨by simp [ih1, h1, h2], by simp [ih2, h1, h2], by simp [ih3, h1, h2],
          by simp [ih4, h1, h2]⟩
      · by_cases h3 : auction_category db a = "tms"
        · have hstep : categorize_step db cat a = { cat with tms := cat.tms ++ [a] } := by
            simp [categorize_step, h1, h2, h3]
          rw [hstep]
          obtain ⟨ih1, ih2, ih3, ih4⟩ := ih { cat with tms := cat.tms ++ [a] }
          exact ⟨by simp [ih1, h1, h2, h3], by simp [ih2, h1, h2, h3], by simp [ih3, h1, h2, h3],
            by simp [ih4, h1, h2, h3]⟩
        · have hstep : categorize_step db cat a
              = { cat with nonlegendary := cat.nonlegendary ++ [a] } := by
            simp [categorize_step, h1, h2, h3]
          rw [hstep]
          obtain ⟨ih1, ih2, ih3, ih4⟩ := ih { cat with nonlegendary := cat.nonlegendary ++ [a] }
          exact ⟨by simp [ih1, h1, h2, h3], by simp [ih2, h1, h2, h3], by simp [ih3, h1, h2, h3],
            by simp [ih4, h1, h2, h3]⟩

/-- With a truthy reference already carried by some auction row — active
or not — `save_auction` on valid inputs returns the duplicate signal and
leaves the database unchanged. -/
theorem save_auction_duplicate_of_mem (db : DB) (item_text : String)
    (photo_id : Option String) (bp r now : Int)
    (hit : item_text ≠ "") (hr : r ≠ 0) (a : Auction)
    (ha : a ∈ db.auctions) (href : a.channel_message_id = some r) :
    save_auction db item_text photo_id (some bp) (some r) now = (db, SaveResult.duplicate) := by
  have hA : ¬(item_text = "" ∨ (some bp : Option Int) = none) := by simp [hit]
  have hB : (supplied (some r) &&
      db.auctions.any (fun a => a.channel_message_id == some r)) = true := by
    have h1 : supplied (some r) = true := by simp [supplied, hr]
    have h2 : db.auctions.any (fun a => a.channel_message_id == some r) = true :=
      List.any_eq_true.mpr ⟨a, ha, by simp [href]⟩
    rw [h1, h2]
    rfl
  unfold save_auction
  rw [if_neg hA, if_pos hB]

/-- With a reference carried by no auction row, `save_auction` on valid
inputs inserts a fresh active auction row with NULL bid state. -/
theorem save_auction_created_of_not_mem (db : DB) (item_text : String)
    (photo_id : Option String) (bp r now : Int)
    (hit : item_text ≠ "")
    (h : ∀ a ∈ db.auctions, a.channel_message_id ≠ some r) :
    save_auction db item_text photo_id (some bp) (some r) now
      = ({ db with
            auctions := db.auctions ++ [⟨db.next_auction_id, item_text, photo_id, bp,
              none, none, none, true, some r, now⟩],
            next_auction_id := db.next_auction_id + 1 },
         SaveResult.created db.next_auction_id) := by
  have hA : ¬(item_text = "" ∨ (some bp : Option Int) = none) := by simp [hit]
  have hB : (supplied (some r) &&
      db.auctions.any (fun a => a.channel_message_id == some r)) = false := by
    cases hany : db.auctions.any (fun a => a.channel_message_id == some r) with
    | false => simp
    | true =>
      obtain ⟨x, hx, hpx⟩ := List.any_eq_true.mp hany
      exact absurd (by simpa using hpx) (h x hx)
  unfold save_auction
  rw [if_neg hA]
  rw [hB]
  rfl

/-- C3: `get_min_increment` is the fixed step function of the spec —
1000 for a missing or zero current amount and below 20000, then 2000,
3000, 4000 below 40000, 70000, 100000, and 5000 beyond — monotonically
non-decreasing on non-negative amounts, with range {1000,…,5000}. -/
theorem claim_C3 :
    (get_min_increment none = 1000 ∧ get_min_increment (some 0) = 1000) ∧
    (∀ v : Int, v < 20000 → get_min_increment (some v) = 1000) ∧
    (∀ v : Int, 20000 ≤ v → v < 40000 → get_min_increment (some v) = 2000) ∧
    (∀ v : Int, 40000 ≤ v → v < 70000 → get_min_increment (some v) = 3000) ∧
    (∀ v : Int, 70000 ≤ v → v < 100000 → get_min_increment (some v) = 4000) ∧
    (∀ v : Int, 100000 ≤ v → get_min_increment (some v) = 5000) ∧
    (∀ v w : Int, 0 ≤ v → v ≤ w →
      get_min_increment (some v) ≤ get_min_increment (some w)) ∧
    (∀ o : Option Int, get_min_increment o = 1000 ∨ get_min_increment o = 2000 ∨
      get_min_increment o = 3000 ∨ get_min_increment o = 4000 ∨ get_min_increment o = 5000) := by
  refine ⟨⟨rfl, rfl⟩, ?_, ?_, ?_, ?_, ?_, ?_, ?_⟩
  · intro v h; simp only [get_min_increment]; split_ifs <;> omega
  · intro v h1 h2; simp only [get_min_increment]; split_ifs <;> omega
  · intro v h1 h2; simp only [get_min_increment]; split_ifs <;> omega
  · intro v h1 h2; simp only [get_min_increment]; split_ifs <;> omega
  · intro v h; simp only [get_min_increment]; split_ifs <;> omega
  · intro v w h0 hvw; simp only [get_min_increment]; split_ifs <;> omega
  · intro o
    cases o with
    | none => exact Or.inl rfl
    | some v => simp only [get_min_increment]; split_ifs <;> simp

/-- Witness for C3 at concrete amounts. -/
theorem claim_C3_witness :
    get_min_increment (some 30000) = 2000 ∧
    get_min_increment (some 15000) ≤ get_min_increment (some 85000) :=
  ⟨claim_C3.2.2.1 30000 (by decide) (by decide),
   claim_C3.2.2.2.2.2.2.1 15000 85000 (by decide) (by decide)⟩

/-- C6: `remove_last_bid` on an auction with no active bids returns the
no-active-bids result (`None`) and leaves the database unchanged. -/
theorem claim_C6 (db : DB) (aid : Nat) (h : active_bids db aid = []) :
    remove_last_bid db aid = (db, none) := by
  unfold remove_last_bid last_active_bid
  rw [h]
  rfl

/-- Witness for C6: after placing one bid on a fresh auction and
retracting it, a second retraction is a no-op. -/
theorem claim_C6_witness :
    active_bids (remove_last_bid
      (record_bid (save_auction empty_db "Pikachu" none (some 5000) (some 10) 0).1
        1 101 "alice" 6000 1).1 1).1 1 = [] ∧
    remove_last_bid (remove_last_bid
      (record_bid (save_auction empty_db "Pikachu" none (some 5000) (some 10) 0).1
        1 101 "alice" 6000 1).1 1).1 1
      = ((remove_last_bid
          (record_bid (save_auction empty_db "Pikachu" none (some 5000) (some 10) 0).1
            1 101 "alice" 6000 1).1 1).1, none) :=
  ⟨by decide, claim_C6 _ 1 (by decide)⟩

/-- C9: the spec's end-to-end scenario — base price 5000; a first bid of
6000 is accepted (threshold 5000+1000); 6999 is rejected against the new
threshold 7000 and changes nothing; 7000 is accepted, outbidding the
first bidder; one retraction restores the first bidder as leader at
6000. -/
theorem claim_C9 :
    scenario_bid1.2 = BidOutcome.accepted none ∧
    scenario_bid2.2 = BidOutcome.too_low 7000 ∧
    scenario_bid2.1 = scenario_bid1.1 ∧
    scenario_bid3.2 = BidOutcome.accepted (some (101, "alice", 6000)) ∧
    scenario_retract.2 = some (some "alice", some 6000) ∧
    (get_auction scenario_retract.1 1).map Auction.current_bidder = some (some "alice") ∧
    (get_auction scenario_retract.1 1).map Auction.current_bid = some (some 6000) ∧
    (5000 : Int) + get_min_increment (some 5000) = 6000 ∧
    (6000 : Int) + get_min_increment (some 6000) = 7000 := by
  decide

/-- C10: once any auction row — active or not — carries a (truthy)
channel message reference, every later `save_auction` call with that
reference on valid inputs signals duplicate and inserts nothing. -/
theorem claim_C10 (db : DB) (item_text : String) (photo_id : Option String)
    (bp r now : Int) (a : Auction)
    (hr : r ≠ 0) (hit : item_text ≠ "")
    (ha : a ∈ db.auctions) (href : a.channel_message_id = some r) :
    save_auction db item_text photo_id (some bp) (some r) now = (db, SaveResult.duplicate) :=
  save_auction_duplicate_of_mem db item_text photo_id bp r now hit hr a ha href

/-- Witness for C10: a closed, inactive auction row still blocks reuse of
its reference. -/
theorem claim_C10_witness :
    save_auction ⟨[⟨1, "old", none, 5000, none, none, none, false, some 42, 0⟩], [], [], 2, 1⟩
        "new item" none (some 100) (some 42) 7
      = (⟨[⟨1, "old", none, 5000, none, none, none, false, some 42, 0⟩], [], [], 2, 1⟩,
         SaveResult.duplicate) :=
  claim_C10 ⟨[⟨1, "old", none, 5000, none, none, none, false, some 42, 0⟩], [], [], 2, 1⟩
    "new item" none 100 42 7 ⟨1, "old", none, 5000, none, none, none, false, some 42, 0⟩
    (by decide) (by decide) (by decide) (by decide)

/-- C7 counterexample: a database whose only auction row is inactive but
carries reference 5 — so no *active* auction references 5 — yet
`save_auction` with reference 5 signals duplicate and inserts nothing,
where the claim's otherwise-branch demands a fresh insertion. -/
theorem claim_C7_counterexample :
    ([⟨1, "old", none, 5000, none, none, none, false, some 5, 0⟩] : List Auction).filter
        (fun a => a.is_active && a.channel_message_id == some 5) = [] ∧
    save_auction ⟨[⟨1, "old", none, 5000, none, none, none, false, some 5, 0⟩], [], [], 2, 1⟩
        "fresh" none (some 100) (some 5) 7
      = (⟨[⟨1, "old", none, 5000, none, none, none, false, some 5, 0⟩], [], [], 2, 1⟩,
         SaveResult.duplicate) := by
  decide

/-- C7 (amended): with a truthy reference, `save_auction` signals
duplicate and inserts nothing when *any* auction row — active or not —
already carries the reference; otherwise it inserts a fresh auction with
NULL `current_bid`/`current_bidder` and the active flag set, and a second
call with the same reference is a duplicate no-op, leaving exactly one
row carrying the reference. -/
theorem claim_C7 (db : DB) (item_text : String) (photo_id : Option String)
    (bp : Int) (r now now' : Int)
    (hit : item_text ≠ "") (hr : r ≠ 0) :
    ((∃ a ∈ db.auctions, a.channel_message_id = some r) →
      save_auction db item_text photo_id (some bp) (some r) now = (db, SaveResult.duplicate)) ∧
    ((∀ a ∈ db.auctions, a.channel_message_id ≠ some r) →
      (save_auction db item_text photo_id (some bp) (some r) now).2
          = SaveResult.created db.next_auction_id ∧
      (save_auction db item_text photo_id (some bp) (some r) now).1.auctions
          = db.auctions ++ [⟨db.next_auction_id, item_text, photo_id, bp, none, none, none,
              true, some r, now⟩]) ∧
    ((∀ a ∈ db.auctions, a.channel_message_id ≠ some r) →
      save_auction (save_auction db item_text photo_id (some bp) (some r) now).1
          item_text photo_id (some bp) (some r) now'
        = ((save_auction db item_text photo_id (some bp) (some r) now).1,
           SaveResult.duplicate) ∧
      ((save_auction db item_text photo_id (some bp) (some r) now).1.auctions.filter
          (fun a => a.channel_message_id == some r)).length = 1) := by
  refine ⟨?_, ?_, ?_⟩
  · intro ⟨a, ha, href⟩
    exact save_auction_duplicate_of_mem db item_text photo_id bp r now hit hr a ha href
  · intro h
    rw [save_auction_created_of_not_mem db item_text photo_id bp r now hit h]
    exact ⟨rfl, rfl⟩
  · intro h
    have hs1 := save_auction_created_of_not_mem db item_text photo_id bp r now hit h
    constructor
    · refine save_auction_duplicate_of_mem _ item_text photo_id bp r now' hit hr
        ⟨db.next_auction_id, item_text, photo_id, bp, none, none, none, true, some r, now⟩
        ?_ rfl
      rw [hs1]
      simp
    · rw [hs1]
      simp only [List.filter_append]
      have h1 : db.auctions.filter (fun a => a.channel_message_id == some r) = [] :=
        List.filter_eq_nil_iff.mpr (fun a ha => by simpa using h a ha)
      rw [h1]
      simp

/-- Witness for C7 on an empty database: the first call creates the row,
the second call with the same reference is a duplicate no-op. -/
theorem claim_C7_witness :
    ((save_auction empty_db "itm" none (some 500) (some 5) 0).2 = SaveResult.created 1 ∧
     (save_auction empty_db "itm" none (some 500) (some 5) 0).1.auctions
       = [⟨1, "itm", none, 500, none, none, none, true, some 5, 0⟩]) ∧
    (save_auction (save_auction empty_db "itm" none (some 500) (some 5) 0).1
        "itm" none (some 500) (some 5) 9
      = ((save_auction empty_db "itm" none (some 500) (some 5) 0).1, SaveResult.duplicate) ∧
     ((save_auction empty_db "itm" none (some 500) (some 5) 0).1.auctions.filter
        (fun a => a.channel_message_id == some 5)).length = 1) :=
  ⟨(claim_C7 empty_db "itm" none 500 5 0 9 (by decide) (by decide)).2.1 (by simp [empty_db]),
   (claim_C7 empty_db "itm" none 500 5 0 9 (by decide) (by decide)).2.2 (by simp [empty_db])⟩

/-- C1 counterexample: `record_bid` stores the markdown-escaped bidder
name, so for the name `a_b` the recorded `current_bidder` is `a\_b`, not
the bidder's name itself. -/
theorem claim_C1_counterexample :
    (get_auction (record_bid ⟨[⟨1, "itm", none, 5000, none, none, none, true, some 10, 0⟩],
        [], [], 2, 1⟩ 1 7 "a_b" 6000 1).1 1).map Auction.current_bidder
      = some (some "a\\_b") ∧
    some (some "a\\_b") ≠ some (some "a_b") := by
  decide

/-- C1 (amended): after `record_bid` on an existing active auction,
`get_auction` shows `current_bid` equal to the amount and
`current_bidder` equal to the markdown-escaped bidder name;
`previous_bidder` is the prior `current_bidder`, or the sentinel string
`"None"` when there was none; and `record_bid` returns the prior leading
active bid record (bidder id, stored name, amount), or `none` when this
was the first bid. -/
theorem claim_C1 (db : DB) (aid : Nat) (bidder_id : Int) (bidder_name : String)
    (amount now : Int) (a : Auction)
    (ha : get_auction db aid = some a) (hact : a.is_active = true) :
    (∃ a', get_auction (record_bid db aid bidder_id bidder_name amount now).1 aid = some a' ∧
      a'.current_bid = some amount ∧
      a'.current_bidder = some (escape_markdown bidder_name) ∧
      a'.previous_bidder = some (a.current_bidder.getD "None")) ∧
    ((record_bid db aid bidder_id bidder_name amount now).2 = none ↔
      active_bids db aid = []) ∧
    (∀ i n m, (record_bid db aid bidder_id bidder_name amount now).2 = some (i, n, m) →
      ∃ b ∈ active_bids db aid, b.bidder_id = i ∧ b.bidder_name = n ∧ b.amount = m ∧
        ∀ x ∈ active_bids db aid, x.amount ≤ m) := by
  have ha' : db.auctions.find? (fun x => x.auction_id == aid) = some a := ha
  have hpa : (a.auction_id == aid) = true := by
    have hp := List.find?_some ha'
    simpa using hp
  refine ⟨?_, ?_, ?_⟩
  · have hcomm := find?_map_comm
      (fun x => if x.auction_id == aid then bid_update amount (escape_markdown bidder_name) x
        else x)
      (fun x => x.auction_id == aid)
      (fun x => by by_cases hx : (x.auction_id == aid) = true <;> simp [hx, bid_update])
      db.auctions
    have hget : get_auction (record_bid db aid bidder_id bidder_name amount now).1 aid
        = some (bid_update amount (escape_markdown bidder_name) a) := by
      show ((record_bid db aid bidder_id bidder_name amount now).1.auctions.find?
        (fun x => x.auction_id == aid)) = _
      simp only [record_bid]
      rw [hcomm, ha']
      simp only [Option.map_some']
      rw [if_pos hpa]
    exact ⟨bid_update amount (escape_markdown bidder_name) a, hget, rfl, rfl, rfl⟩
  · show ((top_active_bid db aid).map
        (fun b => (b.bidder_id, b.bidder_name, b.amount))) = none ↔ _
    rw [Option.map_eq_none']
    exact max_amount_bid_eq_none
  · intro i n m hsome
    have hsome' : ((top_active_bid db aid).map
        (fun b => (b.bidder_id, b.bidder_name, b.amount))) = some (i, n, m) := hsome
    obtain ⟨b, hb, hbeq⟩ := Option.map_eq_some.mp hsome'
    obtain ⟨hmem, hmax⟩ := max_amount_bid_spec hb
    have h123 : b.bidder_id = i ∧ b.bidder_name = n ∧ b.amount = m := by
      simpa using hbeq
    obtain ⟨h1, h2, h3⟩ := h123
    exact ⟨b, hmem, h1, h2, h3, fun x hx => h3 ▸ hmax x hx⟩

/-- Witness for C1: outbidding a stored first bid updates the visible
auction record and returns the outbid party. -/
theorem claim_C1_witness :
    (get_auction (record_bid ⟨[⟨1, "itm", none, 5000, some 6000, some "alice", none, true,
        some 10, 0⟩], [⟨1, 1, 101, "alice", 6000, 1, true⟩], [], 2, 2⟩ 1 102 "bob" 7000 2).1
      1).map Auction.current_bid = some (some 7000) ∧
    (get_auction (record_bid ⟨[⟨1, "itm", none, 5000, some 6000, some "alice", none, true,
        some 10, 0⟩], [⟨1, 1, 101, "alice", 6000, 1, true⟩], [], 2, 2⟩ 1 102 "bob" 7000 2).1
      1).map Auction.current_bidder = some (some "bob") ∧
    (get_auction (record_bid ⟨[⟨1, "itm", none, 5000, some 6000, some "alice", none, true,
        some 10, 0⟩], [⟨1, 1, 101, "alice", 6000, 1, true⟩], [], 2, 2⟩ 1 102 "bob" 7000 2).1
      1).map Auction.previous_bidder = some (some "alice") := by
  obtain ⟨a', ha', h1, h2, h3⟩ := (claim_C1
    ⟨[⟨1, "itm", none, 5000, some 6000, some "alice", none, true, some 10, 0⟩],
      [⟨1, 1, 101, "alice", 6000, 1, true⟩], [], 2, 2⟩ 1 102 "bob" 7000 2
    ⟨1, "itm", none, 5000, some 6000, some "alice", none, true, some 10, 0⟩
    (by decide) (by decide)).1
  rw [ha']
  simp only [Option.map_some']
  rw [h1, h2, h3]
  exact ⟨rfl, rfl, rfl⟩

/-- C2 counterexample: a state reached through the code's own
bid-placement path (base price -2000, accepted bids -1000 then 0) whose
auction is active with `current_bid` set to 0.  The claim's threshold is
`current_bid + minIncrement(current_bid) = 0 + 1000 = 1000`, so a bid of
-500 must be rejected — but the code treats the falsy `current_bid` 0 as
unset, compares against `base_price + 1000 = -1000`, and accepts and
records the bid. -/
theorem claim_C2_counterexample :
    (get_auction neg_scenario3 1).map Auction.current_bid = some (some 0) ∧
    (get_auction neg_scenario3 1).map Auction.is_active = some true ∧
    (0 : Int) + get_min_increment (some 0) = 1000 ∧
    (-500 : Int) < 1000 ∧
    (handle_bid_amount neg_scenario3 1 3 "w" (-500) 3).2
      = BidOutcome.accepted (some (2, "v", 0)) := by
  decide

/-- C2 (amended): the bid-placement path rejects, without recording,
every amount strictly below `currentAmount + minIncrement(currentAmount)`
and accepts and records every amount at or above it, where
`currentAmount` is the auction's `current_bid` if set *and nonzero*
(Python `or` treats a zero `current_bid` as unset), else its
`base_price`. -/
theorem claim_C2 (db : DB) (aid : Nat) (bidder_id : Int) (bidder_name : String)
    (amount now : Int) (a : Auction)
    (ha : get_auction db aid = some a) (hact : a.is_active = true) :
    (amount < current_amount a + get_min_increment (some (current_amount a)) →
      handle_bid_amount db aid bidder_id bidder_name amount now
        = (db, BidOutcome.too_low
            (current_amount a + get_min_increment (some (current_amount a))))) ∧
    (current_amount a + get_min_increment (some (current_amount a)) ≤ amount →
      (handle_bid_amount db aid bidder_id bidder_name amount now).2
          = BidOutcome.accepted ((top_active_bid db aid).map
              (fun b => (b.bidder_id, b.bidder_name, b.amount))) ∧
      (handle_bid_amount db aid bidder_id bidder_name amount now).1.bids
          = db.bids ++ [⟨db.next_bid_id, aid, bidder_id, escape_markdown bidder_name,
              amount, now, true⟩]) := by
  have hact' : ¬(a.is_active = false) := by rw [hact]; simp
  constructor
  · intro hlt
    simp only [handle_bid_amount, ha]
    rw [if_neg hact', if_pos hlt]
  · intro hge
    have hnlt : ¬(amount < current_amount a + get_min_increment (some (current_amount a))) := by
      omega
    simp only [handle_bid_amount, ha]
    rw [if_neg hact', if_neg hnlt]
    exact ⟨rfl, rfl⟩

/-- Witness for C2: on a fresh auction with base price 5000, 5999 is
rejected against the threshold 6000 and 6000 is accepted and recorded. -/
theorem claim_C2_witness :
    handle_bid_amount ⟨[⟨1, "itm", none, 5000, none, none, none, true, none, 0⟩], [], [], 2, 1⟩
        1 7 "u" 5999 1
      = (⟨[⟨1, "itm", none, 5000, none, none, none, true, none, 0⟩], [], [], 2, 1⟩,
         BidOutcome.too_low 6000) ∧
    (handle_bid_amount ⟨[⟨1, "itm", none, 5000, none, none, none, true, none, 0⟩], [], [], 2, 1⟩
        1 7 "u" 6000 1).2 = BidOutcome.accepted none ∧
    (handle_bid_amount ⟨[⟨1, "itm", none, 5000, none, none, none, true, none, 0⟩], [], [], 2, 1⟩
        1 7 "u" 6000 1).1.bids = [⟨1, 1, 7, "u", 6000, 1, true⟩] :=
  ⟨(claim_C2 ⟨[⟨1, "itm", none, 5000, none, none, none, true, none, 0⟩], [], [], 2, 1⟩ 1 7 "u"
      5999 1 ⟨1, "itm", none, 5000, none, none, none, true, none, 0⟩ (by decide) (by decide)).1
    (by decide),
   (claim_C2 ⟨[⟨1, "itm", none, 5000, none, none, none, true, none, 0⟩], [], [], 2, 1⟩ 1 7 "u"
      6000 1 ⟨1, "itm", none, 5000, none, none, none, true, none, 0⟩ (by decide) (by decide)).2
    (by decide)⟩

/-- The increment tiers never fall below 1000. -/
theorem get_min_increment_ge (o : Option Int) : 1000 ≤ get_min_increment o := by
  cases o with
  | none => decide
  | some v => simp only [get_min_increment]; split_ifs <;> omega

/-- Looking up an auction after the per-row conditional update applied by
`record_bid` and `set_leader` returns the updated row, provided the
update does not change the key. -/
theorem find?_update (l : List Auction) (aid : Nat) (f : Auction → Auction)
    (hf : ∀ x, (f x).auction_id = x.auction_id) {a : Auction}
    (ha : l.find? (fun x => x.auction_id == aid) = some a) :
    (l.map (fun x => if x.auction_id == aid then f x else x)).find?
      (fun x => x.auction_id == aid) = some (f a) := by
  have hpa : (a.auction_id == aid) = true := by
    have hp := List.find?_some ha
    simpa using hp
  have hcomm := find?_map_comm (fun x => if x.auction_id == aid then f x else x)
    (fun x => x.auction_id == aid)
    (fun x => by by_cases hx : (x.auction_id == aid) = true <;> simp [hx, hf]) l
  rw [hcomm, ha]
  simp only [Option.map_some']
  rw [if_pos hpa]

/-- `set_leader` rewrites the looked-up auction row to the new leader. -/
theorem get_auction_set_leader (db : DB) (aid : Nat) (nt : Option Bid) (pn : String)
    {a : Auction} (ha : get_auction db aid = some a) :
    get_auction (set_leader aid nt pn db) aid
      = some { a with current_bid := nt.map Bid.amount,
                      current_bidder := nt.map Bid.bidder_name,
                      previous_bidder := some pn } :=
  find?_update db.auctions aid
    (fun x => { x with current_bid := nt.map Bid.amount,
                       current_bidder := nt.map Bid.bidder_name,
                       previous_bidder := some pn })
    (fun x => rfl) ha

/-- The active bids of auction `x` after `deactivate_bid k`: the original
active bids whose id is not `k`. -/
theorem active_bids_deactivate (k : Nat) (db : DB) (x : Nat) :
    active_bids (deactivate_bid k db) x
      = db.bids.filter (fun b => b.bid_id != k && (b.auction_id == x && b.is_active)) :=
  filter_map_flip k x db.bids

/-- `set_leader` does not change any bid row. -/
theorem active_bids_set_leader (aid : Nat) (nt : Option Bid) (pn : String) (db : DB)
    (x : Nat) : active_bids (set_leader aid nt pn db) x = active_bids db x :=
  rfl

/-- C5: when an auction has at least one active bid, `remove_last_bid`
targets the most recently placed one (latest timestamp, then highest bid
id), marks it inactive, sets `previous_bidder` to the retracted bid's
owner in every case, and sets `current_bid`/`current_bidder` to a
maximum remaining active bid — or to NULL, returning the explicit
`(none, none)` result, when no active bid remains. -/
theorem claim_C5 (db : DB) (aid : Nat) (a : Auction) (last : Bid)
    (ha : get_auction db aid = some a)
    (hlast : last_active_bid db aid = some last) :
    (last ∈ active_bids db aid ∧ ∀ b ∈ active_bids db aid, placed_le b last) ∧
    (∀ b ∈ (remove_last_bid db aid).1.bids, b.bid_id = last.bid_id → b.is_active = false) ∧
    (∃ a', get_auction (remove_last_bid db aid).1 aid = some a' ∧
      a'.previous_bidder = some last.bidder_name ∧
      ((∃ nt, (remove_last_bid db aid).2 = some (some nt.bidder_name, some nt.amount) ∧
         a'.current_bid = some nt.amount ∧ a'.current_bidder = some nt.bidder_name ∧
         nt ∈ active_bids (remove_last_bid db aid).1 aid ∧
         ∀ b ∈ active_bids (remove_last_bid db aid).1 aid, b.amount ≤ nt.amount) ∨
       ((remove_last_bid db aid).2 = some (none, none) ∧
         a'.current_bid = none ∧ a'.current_bidder = none ∧
         active_bids (remove_last_bid db aid).1 aid = []))) := by
  obtain ⟨hmem, hall⟩ := latest_bid_spec hlast
  have hpart2 : ∀ b ∈ db.bids.map
      (fun x => if x.bid_id == last.bid_id then { x with is_active := false } else x),
      b.bid_id = last.bid_id → b.is_active = false := by
    intro b hb hbid
    obtain ⟨x, hx, hfx⟩ := List.mem_map.mp hb
    by_cases hxk : (x.bid_id == last.bid_id) = true
    · rw [if_pos hxk] at hfx
      rw [← hfx]
    · rw [if_neg hxk] at hfx
      rw [← hfx] at hbid
      simp only [beq_iff_eq] at hxk
      exact absurd hbid hxk
  have ha1 : get_auction (deactivate_bid last.bid_id db) aid = some a := ha
  refine ⟨⟨hmem, hall⟩, ?_⟩
  cases htop : top_active_bid (deactivate_bid last.bid_id db) aid with
  | some nt =>
    have hred : remove_last_bid db aid
        = (set_leader aid (some nt) last.bidder_name (deactivate_bid last.bid_id db),
           some (some nt.bidder_name, some nt.amount)) := by
      simp only [remove_last_bid, hlast, htop]
    rw [hred]
    have htop' : max_amount_bid (active_bids (deactivate_bid last.bid_id db) aid)
        = some nt := htop
    obtain ⟨hntmem, hntmax⟩ := max_amount_bid_spec htop'
    refine ⟨fun b hb => hpart2 b hb, ?_⟩
    have hga := get_auction_set_leader (deactivate_bid last.bid_id db) aid (some nt)
      last.bidder_name ha1
    exact ⟨_, hga, rfl, Or.inl ⟨nt, rfl, rfl, rfl, hntmem, hntmax⟩⟩
  | none =>
    have hred : remove_last_bid db aid
        = (set_leader aid none last.bidder_name (deactivate_bid last.bid_id db),
           some (none, none)) := by
      simp only [remove_last_bid, hlast, htop]
    rw [hred]
    have htop' : max_amount_bid (active_bids (deactivate_bid last.bid_id db) aid)
        = none := htop
    have hempty : active_bids (deactivate_bid last.bid_id db) aid = [] :=
      max_amount_bid_eq_none.mp htop'
    refine ⟨fun b hb => hpart2 b hb, ?_⟩
    have hga := get_auction_set_leader (deactivate_bid last.bid_id db) aid none
      last.bidder_name ha1
    exact ⟨_, hga, rfl, Or.inr ⟨rfl, rfl, rfl, hempty⟩⟩

/-- Witness for C5: on the two-bid state, the 7000 bid by bidder 102 is
the active bid `remove_last_bid` targets, and the earlier 6000 bid was
placed no later than it. -/
theorem claim_C5_witness :
    (⟨2, 1, 102, "bob", 7000, 2, true⟩ : Bid) ∈ active_bids retract_db 1 ∧
    placed_le ⟨1, 1, 101, "alice", 6000, 1, true⟩ ⟨2, 1, 102, "bob", 7000, 2, true⟩ :=
  ⟨(claim_C5 retract_db 1
      ⟨1, "itm", none, 5000, some 7000, some "bob", some "alice", true, some 10, 0⟩
      ⟨2, 1, 102, "bob", 7000, 2, true⟩ (by decide) (by decide)).1.1,
   (claim_C5 retract_db 1
      ⟨1, "itm", none, 5000, some 7000, some "bob", some "alice", true, some 10, 0⟩
      ⟨2, 1, 102, "bob", 7000, 2, true⟩ (by decide) (by decide)).1.2
     ⟨1, 1, 101, "alice", 6000, 1, true⟩ (by decide)⟩

/-- Auction creation preserves the consistency invariant: existing rows
keep their active bids, and the fresh row has NULL `current_bid` and — by
well-formedness of the row ids — no bid row referencing it. -/
theorem save_auction_preserves_invariant (db : DB) (item_text : String)
    (photo_id : Option String) (base_price : Option Int) (ref : Option Int) (now : Int)
    (hwf : db_wf db) (hinv : db_invariant db) :
    db_invariant (save_auction db item_text photo_id base_price ref now).1 := by
  unfold save_auction
  split_ifs with h1 h2
  · exact hinv
  · exact hinv
  · intro x hx
    have hx' : x ∈ db.auctions ++
        [⟨db.next_auction_id, item_text, photo_id, base_price.getD 0, none, none, none,
          true, ref, now⟩] := hx
    rcases List.mem_append.mp hx' with hxo | hxn
    · refine auction_invariant_of_eq ?_ (hinv x hxo)
      rfl
    · have hxn' : x = ⟨db.next_auction_id, item_text, photo_id, base_price.getD 0, none,
          none, none, true, ref, now⟩ := by simpa using hxn
      subst hxn'
      have hempty : db.bids.filter
          (fun b => b.auction_id == db.next_auction_id && b.is_active) = [] := by
        apply List.filter_eq_nil_iff.mpr
        intro b hb
        have hlt := hwf.2.2.1 b hb
        simp only [Bool.and_eq_true, beq_iff_eq, not_and]
        intro he
        omega
      constructor
      · exact ⟨fun _ => hempty, fun _ => rfl⟩
      · intro v hv
        exact absurd hv (by simp)

/-- Recording a bid that clears the caller's threshold preserves the
consistency invariant: the new bid strictly exceeds every active bid of
the target auction (given a non-negative base price), so it is the new
maximum, and other auctions' bids are untouched. -/
theorem record_bid_preserves_invariant (db : DB) (aid : Nat) (bidder_id : Int)
    (bidder_name : String) (amount now : Int) (a : Auction)
    (hwf : db_wf db) (hinv : db_invariant db)
    (ha : get_auction db aid = some a) (hbp : 0 ≤ a.base_price)
    (hge : current_amount a + get_min_increment (some (current_amount a)) ≤ amount) :
    db_invariant (record_bid db aid bidder_id bidder_name amount now).1 := by
  have ha' : db.auctions.find? (fun x => x.auction_id == aid) = some a := ha
  have hamem : a ∈ db.auctions := List.mem_of_find?_eq_some ha'
  have haid : a.auction_id = aid := by
    have hp := List.find?_some ha'
    simpa using hp
  have hbound : ∀ b ∈ active_bids db aid, b.amount ≤ amount := by
    intro b hb
    have hinva := hinv a hamem
    unfold auction_invariant at hinva
    rw [haid] at hinva
    cases hcb : a.current_bid with
    | none =>
      have hnil := hinva.1.mp hcb
      rw [hnil] at hb
      simp at hb
    | some v =>
      obtain ⟨-, hub⟩ := hinva.2 v hcb
      have hbv := hub b hb
      have hca : current_amount a = if v = 0 then a.base_price else v := by
        simp [current_amount, hcb]
      by_cases hv0 : v = 0
      · have hge' : a.base_price + get_min_increment (some a.base_price) ≤ amount := by
          rw [hca, if_pos hv0] at hge
          exact hge
        have hinc := get_min_increment_ge (some a.base_price)
        omega
      · have hge' : v + get_min_increment (some v) ≤ amount := by
          rw [hca, if_neg hv0] at hge
          exact hge
        have hinc := get_min_increment_ge (some v)
        omega
  have hbids : (record_bid db aid bidder_id bidder_name amount now).1.bids
      = db.bids ++ [⟨db.next_bid_id, aid, bidder_id, escape_markdown bidder_name,
          amount, now, true⟩] := rfl
  intro x hx
  have hx' : x ∈ db.auctions.map (fun y =>
      if y.auction_id == aid then bid_update amount (escape_markdown bidder_name) y
      else y) := hx
  obtain ⟨x0, hx0, hfx⟩ := List.mem_map.mp hx'
  by_cases hid : (x0.auction_id == aid) = true
  · have hid' : x0.auction_id = aid := by simpa using hid
    have hx0a : x0 = a :=
      eq_of_pairwise_key (fun z => z.auction_id) db.auctions hwf.2.2.2.1 hx0 hamem
        (hid'.trans haid.symm)
    rw [if_pos hid, hx0a] at hfx
    subst hfx
    have hact : active_bids (record_bid db aid bidder_id bidder_name amount now).1 aid
        = active_bids db aid ++ [⟨db.next_bid_id, aid, bidder_id,
            escape_markdown bidder_name, amount, now, true⟩] := by
      unfold active_bids
      rw [hbids, List.filter_append]
      congr 1
      simp
    have hxaid : (bid_update amount (escape_markdown bidder_name) a).auction_id = aid := haid
    unfold auction_invariant
    rw [hxaid]
    constructor
    · constructor
      · intro hc
        exact absurd hc (by simp [bid_update])
      · intro hc
        rw [hact] at hc
        simp at hc
    · intro v hv
      have hv' : amount = v := by simpa [bid_update] using hv
      subst hv'
      rw [hact]
      constructor
      · exact ⟨⟨db.next_bid_id, aid, bidder_id, escape_markdown bidder_name,
          amount, now, true⟩, by simp, rfl⟩
      · intro b hb
        rcases List.mem_append.mp hb with hbo | hbn
        · exact hbound b hbo
        · have hbn' : b = ⟨db.next_bid_id, aid, bidder_id, escape_markdown bidder_name,
              amount, now, true⟩ := by simpa using hbn
          rw [hbn']
  · rw [if_neg hid] at hfx
    subst hfx
    refine auction_invariant_of_eq ?_ (hinv x0 hx0)
    have hne : x0.auction_id ≠ aid := by simpa using hid
    show (record_bid db aid bidder_id bidder_name amount now).1.bids.filter
        (fun b => b.auction_id == x0.auction_id && b.is_active)
      = active_bids db x0.auction_id
    rw [hbids, List.filter_append]
    have hsingle : ([⟨db.next_bid_id, aid, bidder_id, escape_markdown bidder_name,
        amount, now, true⟩] : List Bid).filter
          (fun b => b.auction_id == x0.auction_id && b.is_active) = [] := by
      simp [Ne.symm hne]
    rw [hsingle, List.append_nil]
    rfl

/-- Retracting the last bid preserves the consistency invariant: the
target auction's bid state is recomputed from its remaining active bids,
and — by uniqueness of bid ids — other auctions' active bids are
untouched. -/
theorem remove_last_bid_preserves_invariant (db : DB) (aid : Nat)
    (hwf : db_wf db) (hinv : db_invariant db) :
    db_invariant (remove_last_bid db aid).1 := by
  cases hlast : last_active_bid db aid with
  | none =>
    have hred : remove_last_bid db aid = (db, none) := by
      simp only [remove_last_bid, hlast]
    rw [hred]
    exact hinv
  | some last =>
    have hlmem : last ∈ active_bids db aid := (latest_bid_spec hlast).1
    have hlf := List.mem_filter.mp hlmem
    have hlbids : last ∈ db.bids := hlf.1
    have hlaid : last.auction_id = aid := by
      have hl2 := hlf.2
      simp at hl2
      exact hl2.1
    have hother : ∀ y, y ≠ aid →
        active_bids (deactivate_bid last.bid_id db) y = active_bids db y := by
      intro y hy
      rw [active_bids_deactivate]
      unfold active_bids
      apply List.filter_congr
      intro b hb
      by_cases hbk : b.bid_id = last.bid_id
      · have hbl : b = last :=
          eq_of_pairwise_key (fun z => z.bid_id) db.bids hwf.2.2.2.2 hb hlbids hbk
        subst hbl
        simp [hlaid, Ne.symm hy]
      · simp [hbk]
    have hmain : ∀ (nt : Option Bid),
        nt = top_active_bid (deactivate_bid last.bid_id db) aid →
        db_invariant (set_leader aid nt last.bidder_name (deactivate_bid last.bid_id db)) := by
      intro nt hnt x hx
      have hx' : x ∈ db.auctions.map (fun y =>
          if y.auction_id == aid then
            { y with current_bid := nt.map Bid.amount,
                     current_bidder := nt.map Bid.bidder_name,
                     previous_bidder := some last.bidder_name }
          else y) := hx
      obtain ⟨x0, hx0, hfx⟩ := List.mem_map.mp hx'
      by_cases hid : (x0.auction_id == aid) = true
      · rw [if_pos hid] at hfx
        subst hfx
        have hid' : x0.auction_id = aid := by simpa using hid
        unfold auction_invariant
        have hxaid : ({ x0 with current_bid := nt.map Bid.amount,
                                current_bidder := nt.map Bid.bidder_name,
                                previous_bidder := some last.bidder_name }
              : Auction).auction_id
            = aid := hid'
        rw [hxaid]
        cases nt with
        | none =>
          have hempty : active_bids (deactivate_bid last.bid_id db) aid = [] :=
            max_amount_bid_eq_none.mp hnt.symm
          constructor
          · exact ⟨fun _ => hempty, fun _ => rfl⟩
          · intro v hv
            exact absurd hv (by simp)
        | some b0 =>
          have hnt' : max_amount_bid (active_bids (deactivate_bid last.bid_id db) aid)
              = some b0 := hnt.symm
          obtain ⟨hbmem, hbmax⟩ := max_amount_bid_spec hnt'
          constructor
          · constructor
            · intro hc
              exact absurd hc (by simp)
            · intro hc
              have hc' : active_bids (deactivate_bid last.bid_id db) aid = [] := hc
              rw [hc'] at hbmem
              simp at hbmem
          · intro v hv
            have hv' : b0.amount = v := by simpa using hv
            subst hv'
            exact ⟨⟨b0, hbmem, rfl⟩, hbmax⟩
      · rw [if_neg hid] at hfx
        subst hfx
        refine auction_invariant_of_eq ?_ (hinv x0 hx0)
        have hne : x0.auction_id ≠ aid := by simpa using hid
        exact hother x0.auction_id hne
    cases htop : top_active_bid (deactivate_bid last.bid_id db) aid with
    | some nt =>
      have hred : remove_last_bid db aid
          = (set_leader aid (some nt) last.bidder_name (deactivate_bid last.bid_id db),
             some (some nt.bidder_name, some nt.amount)) := by
        simp only [remove_last_bid, hlast, htop]
      rw [hred]
      exact hmain (some nt) htop.symm
    | none =>
      have hred : remove_last_bid db aid
          = (set_leader aid none last.bidder_name (deactivate_bid last.bid_id db),
             some (none, none)) := by
        simp only [remove_last_bid, hlast, htop]
      rw [hred]
      exact hmain none htop.symm

/-- C4: the consistency invariant — `current_bid` NULL iff the auction
has no active bid, and otherwise equal to their maximum amount — is
preserved by auction creation, by `record_bid` under the caller's amount
threshold (with the spec's non-negative base price), and by
`remove_last_bid`, on well-formed databases. -/
theorem claim_C4 :
    (∀ (db : DB) (item_text : String) (photo_id : Option String) (base_price : Option Int)
        (ref : Option Int) (now : Int), db_wf db → db_invariant db →
      db_invariant (save_auction db item_text photo_id base_price ref now).1) ∧
    (∀ (db : DB) (aid : Nat) (bidder_id : Int) (bidder_name : String) (amount now : Int)
        (a : Auction), db_wf db → db_invariant db → get_auction db aid = some a →
      0 ≤ a.base_price →
      current_amount a + get_min_increment (some (current_amount a)) ≤ amount →
      db_invariant (record_bid db aid bidder_id bidder_name amount now).1) ∧
    (∀ (db : DB) (aid : Nat), db_wf db → db_invariant db →
      db_invariant (remove_last_bid db aid).1) :=
  ⟨fun db it pid bp ref now hwf hinv =>
      save_auction_preserves_invariant db it pid bp ref now hwf hinv,
   fun db aid bi bn am now a hwf hinv ha hbp hge =>
      record_bid_preserves_invariant db aid bi bn am now a hwf hinv ha hbp hge,
   fun db aid hwf hinv => remove_last_bid_preserves_invariant db aid hwf hinv⟩

/-- Witness for C4 at concrete states: creation on the empty database, a
first bid of 6000 on a fresh auction with base price 5000, and a
retraction on a one-bid auction. -/
theorem claim_C4_witness :
    db_invariant (save_auction empty_db "itm" none (some 500) (some 5) 0).1 ∧
    db_invariant (record_bid ⟨[⟨1, "itm", none, 5000, none, none, none, true, none, 0⟩],
      [], [], 2, 1⟩ 1 7 "u" 6000 1).1 ∧
    db_invariant (remove_last_bid ⟨[⟨1, "itm", none, 5000, some 6000, some "u", none, true,
      none, 0⟩], [⟨1, 1, 7, "u", 6000, 1, true⟩], [], 2, 2⟩ 1).1 :=
  ⟨claim_C4.1 empty_db "itm" none (some 500) (some 5) 0 (by decide)
      (by intro x hx; simp [empty_db] at hx),
   claim_C4.2.1 ⟨[⟨1, "itm", none, 5000, none, none, none, true, none, 0⟩], [], [], 2, 1⟩
      1 7 "u" 6000 1 ⟨1, "itm", none, 5000, none, none, none, true, none, 0⟩ (by decide)
      (by
        intro x hx
        simp only [List.mem_singleton] at hx
        subst hx
        exact ⟨⟨fun _ => rfl, fun _ => rfl⟩, fun v hv => absurd hv (by simp)⟩)
      (by decide) (by decide) (by decide),
   claim_C4.2.2 ⟨[⟨1, "itm", none, 5000, some 6000, some "u", none, true, none, 0⟩],
      [⟨1, 1, 7, "u", 6000, 1, true⟩], [], 2, 2⟩ 1 (by decide)
      (by
        intro x hx
        simp only [List.mem_singleton] at hx
        subst hx
        refine ⟨⟨fun h => absurd h (by simp), fun h => absurd h (by decide)⟩, ?_⟩
        intro v hv
        simp at hv
        subst hv
        refine ⟨⟨⟨1, 1, 7, "u", 6000, 1, true⟩, by decide, rfl⟩, ?_⟩
        intro b hb
        have hb' : b ∈ [(⟨1, 1, 7, "u", 6000, 1, true⟩ : Bid)] := hb
        simp only [List.mem_singleton] at hb'
        rw [hb'])⟩

/-- C8: `get_active_auctions_by_category` partitions exactly the active
auctions into the four fixed buckets by the category of the joined
submission payload, sending every unrecognised (or absent) category to
the `nonlegendary` catch-all — so no active auction is dropped — and
each bucket is ordered most recently created first. -/
theorem claim_C8 (db : DB) :
    (∀ a ∈ db.auctions, a.is_active = true →
      (a ∈ (get_active_auctions_by_category db).legendary ∨
       a ∈ (get_active_auctions_by_category db).shiny ∨
       a ∈ (get_active_auctions_by_category db).tms ∨
       a ∈ (get_active_auctions_by_category db).nonlegendary)) ∧
    (∀ a, a ∈ (get_active_auctions_by_category db).legendary ↔
      (a ∈ db.auctions ∧ a.is_active = true ∧ auction_category db a = "legendary")) ∧
    (∀ a, a ∈ (get_active_auctions_by_category db).shiny ↔
      (a ∈ db.auctions ∧ a.is_active = true ∧ auction_category db a = "shiny")) ∧
    (∀ a, a ∈ (get_active_auctions_by_category db).tms ↔
      (a ∈ db.auctions ∧ a.is_active = true ∧ auction_category db a = "tms")) ∧
    (∀ a, a ∈ (get_active_auctions_by_category db).nonlegendary ↔
      (a ∈ db.auctions ∧ a.is_active = true ∧ auction_category db a ≠ "legendary" ∧
        auction_category db a ≠ "shiny" ∧ auction_category db a ≠ "tms")) ∧
    (get_active_auctions_by_category db).legendary.Pairwise
      (fun x y => y.created_at ≤ x.created_at) ∧
    (get_active_auctions_by_category db).shiny.Pairwise
      (fun x y => y.created_at ≤ x.created_at) ∧
    (get_active_auctions_by_category db).tms.Pairwise
      (fun x y => y.created_at ≤ x.created_at) ∧
    (get_active_auctions_by_category db).nonlegendary.Pairwise
      (fun x y => y.created_at ≤ x.created_at) := by
  obtain ⟨hleg, hshiny, htms, hnon⟩ := foldl_categorize_spec db
    (sort_by_created_desc (db.auctions.filter (fun a => a.is_active))) ⟨[], [], [], []⟩
  have hL : ∀ a : Auction,
      a ∈ sort_by_created_desc (db.auctions.filter (fun a => a.is_active)) ↔
        a ∈ db.auctions ∧ a.is_active = true := by
    intro a
    rw [(perm_sort_by_created (db.auctions.filter (fun a => a.is_active))).mem_iff]
    simp [List.mem_filter]
  have hlegE : (get_active_auctions_by_category db).legendary
      = (sort_by_created_desc (db.auctions.filter (fun a => a.is_active))).filter
          (fun a => auction_category db a == "legendary") := by
    simpa [get_active_auctions_by_category] using hleg
  have hshinyE : (get_active_auctions_by_category db).shiny
      = (sort_by_created_desc (db.auctions.filter (fun a => a.is_active))).filter
          (fun a => auction_category db a == "shiny") := by
    simpa [get_active_auctions_by_category] using hshiny
  have htmsE : (get_active_auctions_by_category db).tms
      = (sort_by_created_desc (db.auctions.filter (fun a => a.is_active))).filter
          (fun a => auction_category db a == "tms") := by
    simpa [get_active_auctions_by_category] using htms
  have hnonE : (get_active_auctions_by_category db).nonlegendary
      = (sort_by_created_desc (db.auctions.filter (fun a => a.is_active))).filter
          (fun a => !(auction_category db a == "legendary" ||
            auction_category db a == "shiny" || auction_category db a == "tms")) := by
    simpa [get_active_auctions_by_category] using hnon
  have hiffL : ∀ a, a ∈ (get_active_auctions_by_category db).legendary ↔
      (a ∈ db.auctions ∧ a.is_active = true ∧ auction_category db a = "legendary") := by
    intro a
    rw [hlegE, List.mem_filter, hL]
    simp [and_assoc]
  have hiffS : ∀ a, a ∈ (get_active_auctions_by_category db).shiny ↔
      (a ∈ db.auctions ∧ a.is_active = true ∧ auction_category db a = "shiny") := by
    intro a
    rw [hshinyE, List.mem_filter, hL]
    simp [and_assoc]
  have hiffT : ∀ a, a ∈ (get_active_auctions_by_category db).tms ↔
      (a ∈ db.auctions ∧ a.is_active = true ∧ auction_category db a = "tms") := by
    intro a
    rw [htmsE, List.mem_filter, hL]
    simp [and_assoc]
  have hiffN : ∀ a, a ∈ (get_active_auctions_by_category db).nonlegendary ↔
      (a ∈ db.auctions ∧ a.is_active = true ∧ auction_category db a ≠ "legendary" ∧
        auction_category db a ≠ "shiny" ∧ auction_category db a ≠ "tms") := by
    intro a
    rw [hnonE, List.mem_filter, hL]
    simp [and_assoc, not_or]
  have hsorted := sorted_sort_by_created (db.auctions.filter (fun a => a.is_active))
  refine ⟨?_, hiffL, hiffS, hiffT, hiffN, ?_, ?_, ?_, ?_⟩
  · intro a ha hact
    by_cases h1 : auction_category db a = "legendary"
    · exact Or.inl ((hiffL a).mpr ⟨ha, hact, h1⟩)
    by_cases h2 : auction_category db a = "shiny"
    · exact Or.inr (Or.inl ((hiffS a).mpr ⟨ha, hact, h2⟩))
    by_cases h3 : auction_category db a = "tms"
    · exact Or.inr (Or.inr (Or.inl ((hiffT a).mpr ⟨ha, hact, h3⟩)))
    exact Or.inr (Or.inr (Or.inr ((hiffN a).mpr ⟨ha, hact, h1, h2, h3⟩)))
  · rw [hlegE]
    exact hsorted.filter _
  · rw [hshinyE]
    exact hsorted.filter _
  · rw [htmsE]
    exact hsorted.filter _
  · rw [hnonE]
    exact hsorted.filter _

/-- Witness for C8: the legendary auction lands in the legendary bucket
and the active auction with no payload category lands in the catch-all
bucket. -/
theorem claim_C8_witness :
    (⟨1, "leg", none, 100, none, none, none, true, some 21, 5⟩ : Auction)
      ∈ (get_active_auctions_by_category categ_db).legendary ∧
    (⟨2, "unknown", none, 100, none, none, none, true, some 22, 7⟩ : Auction)
      ∈ (get_active_auctions_by_category categ_db).nonlegendary :=
  ⟨((claim_C8 categ_db).2.1 _).mpr ⟨by decide, by decide, by decide⟩,
   ((claim_C8 categ_db).2.2.2.2.1 _).mpr
     ⟨by decide, by decide, by decide, by decide, by decide⟩⟩

end LegendAuc
